import Mathlib

/-!
Verification of the bounded object pool (`src/lib.rs`).

The Rust code is shallowly embedded: `Vec<T>` becomes `List T` in push order
(elements are appended at the end, `Vec::pop` removes the last element),
`Option<T>` becomes `Option T`, the factory closure becomes a function
`Unit → T`, and `&mut self` methods become state-passing functions returning
the updated pool.  `SharedPool<T>` is `Arc<Mutex<Pool<T>>>`; its operations
delegate to the inner pool under the lock, so under the linearized
(sequential) semantics they are the corresponding `Pool` operations on the
shared state.  A `Guard` holds `val : Option T` and a `Weak` back reference;
whether that weak reference upgrades at drop time is a fact about the world,
modelled by running the drop glue against an `Option (Pool T)` — `some p`
when the shared pool is still alive with state `p`, `none` when every owning
handle has been dropped.  `unwrap` on an `Option` is modelled by returning
the `Option` itself: a `none` result marks the panic case.
-/

namespace BoundedPool

/-- Model of `Vec::pop`: remove and return the last element, or `none` on an
empty vector, together with the remaining vector. -/
def listPop {T : Type} (l : List T) : Option T × List T :=
  match l.getLast? with
  | none => (none, l)
  | some v => (some v, l.dropLast)

/-- Structure `Pool<T, F>` from `src/lib.rs`: a `Vec`-based buffer pool with a retention
`limit` and a `default` factory. -/
structure Pool (T : Type) where
  cached : List T
  limit : Nat
  default : Unit → T

namespace Pool

variable {T : Type}

/-- Constructor `Pool::new(limit, pre_allocate, initialize, default)`: reserve capacity
for `pre_allocate` items and, if the eager flag (called `initialize` in the
source, a keyword here) holds, fill the vector with `pre_allocate`
factory-made values. -/
def new (limit pre_allocate : Nat) (eager : Bool) (default : Unit → T) :
    Pool T :=
  { cached := if eager then (List.range pre_allocate).map (fun _ => default ())
      else []
    limit := limit
    default := default }

/-- Method `Pool::try_pop`: `self.cached.pop()`. -/
def try_pop (p : Pool T) : Option T × Pool T :=
  match listPop p.cached with
  | (some v, rest) => (some v, { p with cached := rest })
  | (none, _) => (none, p)

/-- Method `Pool::pop`: return a cached value if one exists, otherwise invoke the
factory. -/
def pop (p : Pool T) : T × Pool T :=
  match p.try_pop with
  | (some v, p') => (v, p')
  | (none, p') => (p'.default (), p')

/-- Method `Pool::push`: retain the value only while strictly below the limit. -/
def push (p : Pool T) (v : T) : Pool T :=
  if p.cached.length < p.limit then { p with cached := p.cached ++ [v] } else p

/-- Method `Pool::clear`: discard all spares. -/
def clear (p : Pool T) : Pool T :=
  { p with cached := [] }

/-- Method `Pool::len`: number of spares currently cached. -/
def len (p : Pool T) : Nat :=
  p.cached.length

/-- Method `Pool::is_empty`. -/
def is_empty (p : Pool T) : Bool :=
  p.cached.isEmpty

/-- Constructor `Pool::new_with_default(limit)`: `Self::new(limit, 0, false, T::default)`. -/
def new_with_default [Inhabited T] (limit : Nat) : Pool T :=
  new limit 0 false (fun _ => (Inhabited.default : T))

end Pool

/-- Structure `Guard<T, F>`: the scoped value.  The held value is `val`; the weak back
reference to the originating pool is resolved only at drop time, so it is not
part of the guard's own data here. -/
structure Guard (T : Type) where
  val : Option T

namespace Guard

variable {T : Type}

/-- Method `Guard::into_inner`: `self.val.take().unwrap()`.  The first component is
the unwrapped value (`none` marks the panic case); the second is the guard as
left behind for its drop glue, its slot emptied by `take`. -/
def into_inner (g : Guard T) : Option T × Guard T :=
  (g.val, { val := none })

/-- Impl `Deref for Guard`: `self.val.as_ref().unwrap()` (`none` marks panic). -/
def deref (g : Guard T) : Option T :=
  g.val

/-- Impl `DerefMut for Guard`: `self.val.as_mut().unwrap()` (`none` marks panic). -/
def deref_mut (g : Guard T) : Option T :=
  g.val

/-- Impl `Drop for Guard`, run against the world: if the weak reference upgrades
(`w = some p`) and the slot still holds a value, take it and push it back;
otherwise nothing happens.  Returns the world and the guard after the drop
glue body. -/
def dropRun (g : Guard T) (w : Option (Pool T)) : Option (Pool T) × Guard T :=
  match w with
  | some p =>
    match g.val with
    | some v => (some (p.push v), { val := none })
    | none => (some p, g)
  | none => (none, g)

end Guard

namespace SharedPool

variable {T : Type}

/-- Method `SharedPool::pop_guarded`: pop (constructing if needed) under the lock and
wrap the value in a guard carrying a weak reference to the pool. -/
def pop_guarded (p : Pool T) : Guard T × Pool T :=
  ({ val := some (p.pop).1 }, (p.pop).2)

/-- Method `SharedPool::try_pop_guarded`: `try_pop` under the lock, wrapping a popped
value in a guard; `none` when no spare exists. -/
def try_pop_guarded (p : Pool T) : Option (Guard T) × Pool T :=
  match p.try_pop with
  | (some v, p') => (some { val := some v }, p')
  | (none, p') => (none, p')

end SharedPool

/-- One mutating operation of the `Pool` interface. -/
inductive Op (T : Type) where
  | pop : Op T
  | tryPop : Op T
  | push (v : T) : Op T
  | clear : Op T

/-- Run one operation for its state effect. -/
def applyOp {T : Type} (p : Pool T) : Op T → Pool T
  | Op.pop => (p.pop).2
  | Op.tryPop => (p.try_pop).2
  | Op.push v => p.push v
  | Op.clear => p.clear

/-- Run a sequence of operations. -/
def applyOps {T : Type} (p : Pool T) (ops : List (Op T)) : Pool T :=
  ops.foldl applyOp p

/-- Push a whole list of values, left to right. -/
def pushAll {T : Type} (p : Pool T) (vs : List T) : Pool T :=
  vs.foldl Pool.push p

/-- One `pop` immediately followed by a `push` of the popped value. -/
def popPush {T : Type} (p : Pool T) : Pool T :=
  (p.pop).2.push (p.pop).1

/-- Iterated rounds of `pop` followed by `push` of the popped value. -/
def popPushN {T : Type} (p : Pool T) : Nat → Pool T
  | 0 => p
  | n + 1 => popPushN (popPush p) n

/-- Concrete pool over `Nat` with limit 2 and one eagerly built spare `7`. -/
def natPool : Pool Nat :=
  Pool.new 2 1 true (fun _ => 7)

/-- Concrete empty pool over `Nat` with limit 3. -/
def natPoolEmpty : Pool Nat :=
  Pool.new 3 0 false (fun _ => 0)

section Lemmas

variable {T : Type}

theorem listPop_nil : listPop ([] : List T) = (none, []) := rfl

theorem listPop_concat (l : List T) (a : T) : listPop (l ++ [a]) = (some a, l) := by
  simp [listPop, List.getLast?_concat, List.dropLast_concat]

theorem try_pop_concat (p : Pool T) (l : List T) (a : T) (h : p.cached = l ++ [a]) :
    p.try_pop = (some a, { p with cached := l }) := by
  simp [Pool.try_pop, h, listPop_concat]

theorem try_pop_nil (p : Pool T) (h : p.cached = []) :
    p.try_pop = (none, p) := by
  simp [Pool.try_pop, h, listPop_nil]

theorem pop_concat (p : Pool T) (l : List T) (a : T) (h : p.cached = l ++ [a]) :
    p.pop = (a, { p with cached := l }) := by
  simp [Pool.pop, try_pop_concat p l a h]

theorem pop_nil (p : Pool T) (h : p.cached = []) :
    p.pop = (p.default (), p) := by
  simp [Pool.pop, try_pop_nil p h]

theorem push_lt (p : Pool T) (v : T) (h : p.cached.length < p.limit) :
    p.push v = { p with cached := p.cached ++ [v] } := by
  simp [Pool.push, h]

theorem push_ge (p : Pool T) (v : T) (h : p.limit ≤ p.cached.length) :
    p.push v = p := by
  simp [Pool.push, Nat.not_lt.mpr h]

theorem len_push_le (p : Pool T) (v : T) (h : p.len ≤ p.limit) :
    (p.push v).len ≤ p.limit := by
  by_cases hl : p.cached.length < p.limit
  · simp [push_lt p v hl, Pool.len]
    omega
  · simp [Pool.push, hl, Pool.len]
    exact h

theorem len_pushAll (vs : List T) (p : Pool T) (h : p.len ≤ p.limit) :
    (pushAll p vs).len = min (p.len + vs.length) p.limit := by
  induction vs generalizing p with
  | nil => simp [pushAll, Pool.len] at h ⊢; omega
  | cons v rest ih =>
    by_cases hl : p.cached.length < p.limit
    · have hstep : p.push v = { p with cached := p.cached ++ [v] } := push_lt p v hl
      have := ih ({ p with cached := p.cached ++ [v] })
        (by simp [Pool.len]; omega)
      simp [pushAll, hstep] at this ⊢
      simp [Pool.len] at this ⊢
      omega
    · have hstep : p.push v = p := push_ge p v (Nat.not_lt.mp hl)
      have heq : p.len = p.limit := by
        simp [Pool.len] at h ⊢
        omega
      have := ih p h
      simp [pushAll, hstep] at this ⊢
      simp [Pool.len] at this heq ⊢
      omega

theorem cached_cases (l : List T) : l = [] ∨ ∃ l2 a, l = l2 ++ [a] := by
  rcases List.eq_nil_or_concat l with h | ⟨l2, a, h⟩
  · exact Or.inl h
  · exact Or.inr ⟨l2, a, h.trans (List.concat_eq_append l2 a)⟩

theorem try_pop_fst (p : Pool T) : (p.try_pop).1 = p.cached.getLast? := by
  rcases cached_cases p.cached with h | ⟨l, a, h⟩
  · simp [try_pop_nil p h, h]
  · simp [try_pop_concat p l a h, h, List.getLast?_concat]

theorem try_pop_snd (p : Pool T) :
    (p.try_pop).2 =
      (if p.cached.isEmpty then p else { p with cached := p.cached.dropLast }) := by
  rcases cached_cases p.cached with h | ⟨l, a, h⟩
  · simp [try_pop_nil p h, h]
  · simp [try_pop_concat p l a h, h, List.dropLast_concat]

theorem pop_fst (p : Pool T) :
    (p.pop).1 = (p.cached.getLast?).getD (p.default ()) := by
  rcases cached_cases p.cached with h | ⟨l, a, h⟩
  · simp [pop_nil p h, h]
  · simp [pop_concat p l a h, h, List.getLast?_concat]

theorem pop_snd (p : Pool T) : (p.pop).2 = (p.try_pop).2 := by
  rcases cached_cases p.cached with h | ⟨l, a, h⟩
  · simp [pop_nil p h, try_pop_nil p h]
  · simp [pop_concat p l a h, try_pop_concat p l a h]

theorem len_try_pop_snd (p : Pool T) :
    ((p.try_pop).2).len = p.cached.dropLast.length := by
  rcases cached_cases p.cached with h | ⟨l, a, h⟩
  · simp [try_pop_nil p h, h, Pool.len]
  · simp [try_pop_concat p l a h, h, List.dropLast_concat, Pool.len]

theorem len_pop_snd (p : Pool T) :
    ((p.pop).2).len = p.cached.dropLast.length := by
  rw [pop_snd]
  exact len_try_pop_snd p

theorem limit_push (p : Pool T) (v : T) : (p.push v).limit = p.limit := by
  by_cases h : p.cached.length < p.limit
  · simp [push_lt p v h]
  · simp [push_ge p v (Nat.not_lt.mp h)]

theorem limit_try_pop (p : Pool T) : ((p.try_pop).2).limit = p.limit := by
  rw [try_pop_snd]
  by_cases h : p.cached.isEmpty <;> simp [h]

theorem limit_pop (p : Pool T) : ((p.pop).2).limit = p.limit := by
  rw [pop_snd]
  exact limit_try_pop p

theorem limit_applyOp (p : Pool T) (op : Op T) : (applyOp p op).limit = p.limit := by
  cases op with
  | pop => exact limit_pop p
  | tryPop => exact limit_try_pop p
  | push v => exact limit_push p v
  | clear => rfl

theorem limit_applyOps (ops : List (Op T)) (p : Pool T) :
    (applyOps p ops).limit = p.limit := by
  induction ops generalizing p with
  | nil => rfl
  | cons op rest ih =>
    calc (applyOps p (op :: rest)).limit = (applyOps (applyOp p op) rest).limit := rfl
    _ = (applyOp p op).limit := ih (applyOp p op)
    _ = p.limit := limit_applyOp p op

theorem popPush_eq_self (p : Pool T) (h1 : p.cached ≠ []) (h2 : p.len ≤ p.limit) :
    popPush p = p := by
  rcases cached_cases p.cached with h | ⟨l, a, h⟩
  · exact absurd h h1
  · have hlen : p.cached.length ≤ p.limit := h2
    rw [h] at hlen
    simp only [List.length_append, List.length_cons, List.length_nil] at hlen
    have hl : l.length < p.limit := by omega
    rw [popPush, pop_concat p l a h]
    simp only
    rw [push_lt _ a (by simpa using hl), ← h]

theorem popPushN_eq_self (n : Nat) (p : Pool T) (h1 : p.cached ≠ [])
    (h2 : p.len ≤ p.limit) : popPushN p n = p := by
  induction n generalizing p with
  | zero => rfl
  | succ m ih =>
    show popPushN (popPush p) m = p
    rw [popPush_eq_self p h1 h2]
    exact ih p h1 h2

theorem popPush_nil (p : Pool T) (h1 : p.cached = []) (h2 : 0 < p.limit) :
    popPush p = { p with cached := [p.default ()] } := by
  rw [popPush, pop_nil p h1]
  simp only
  rw [push_lt p _ (by simp [h1]; omega)]
  simp [h1]

end Lemmas

section Claims

variable {T : Type}

/-- C5: `Pool::pop` removes and returns the most recently added spare (LIFO)
whenever one exists, and otherwise invokes the factory and returns its result;
on an empty pool the pool state is unchanged, so the spare count stays 0, and
in general the resulting spare count is the length of `cached.dropLast`. -/
theorem pop_lifo_spec (p : Pool T) :
    (p.pop).1 = (p.cached.getLast?).getD (p.default ()) ∧
    (p.pop).2 =
      (if p.cached.isEmpty then p else { p with cached := p.cached.dropLast }) ∧
    ((p.pop).2).len = p.cached.dropLast.length := by
  refine ⟨pop_fst p, ?_, len_pop_snd p⟩
  rw [pop_snd]
  exact try_pop_snd p

/-- C7: `Pool::try_pop` returns the most recently added spare and removes it;
on an empty pool it returns `none` and leaves the pool record unchanged, its
result does not depend on the factory (the factory is never invoked), and on a
non-empty pool it agrees with `pop`. -/
theorem try_pop_spec (p : Pool T) (f : Unit → T) :
    (p.try_pop).1 = p.cached.getLast? ∧
    (p.try_pop).2 =
      (if p.cached.isEmpty then p else { p with cached := p.cached.dropLast }) ∧
    ((p.try_pop).1).getD (p.default ()) = (p.pop).1 ∧
    (p.try_pop).2 = (p.pop).2 ∧
    ({ p with default := f } : Pool T).try_pop.1 = (p.try_pop).1 ∧
    (({ p with default := f } : Pool T).try_pop.2).cached = ((p.try_pop).2).cached := by
  refine ⟨try_pop_fst p, try_pop_snd p, ?_, (pop_snd p).symm, ?_, ?_⟩
  · rw [try_pop_fst, pop_fst]
  · rw [try_pop_fst, try_pop_fst]
  · rw [try_pop_snd, try_pop_snd]
    by_cases h : p.cached.isEmpty <;> simp [h]

/-- C3: `Pool::push` appends the value exactly when the current spare count is
strictly below the limit and otherwise silently drops it, and pushing a list
of more than `L` values into an initially empty pool with limit `L` leaves
exactly `L` retained spares. -/
theorem push_capacity_spec (p : Pool T) (v : T) (L : Nat) (vs : List T)
    (f : Unit → T) (hL : L < vs.length) :
    p.push v =
      (if p.len < p.limit then { p with cached := p.cached ++ [v] } else p) ∧
    (pushAll (Pool.new L 0 false f) vs).len = L := by
  constructor
  · rfl
  · have h0 : (Pool.new L 0 false f).len ≤ (Pool.new L 0 false f).limit := by
      simp [Pool.new, Pool.len]
    have hmin := len_pushAll vs (Pool.new L 0 false f) h0
    simp [Pool.new, Pool.len] at hmin ⊢
    omega

/-- Witness for `push_capacity_spec`: the spec's test instance, limit 3 and 10
pushed values, ends with exactly 3 retained spares. -/
theorem push_capacity_spec_witness :
    natPoolEmpty.push 1 =
      (if natPoolEmpty.len < natPoolEmpty.limit then
        { natPoolEmpty with cached := natPoolEmpty.cached ++ [1] }
      else natPoolEmpty) ∧
    (pushAll (Pool.new 3 0 false (fun _ => (0 : Nat))) (List.replicate 10 0)).len = 3 :=
  push_capacity_spec natPoolEmpty 1 3 (List.replicate 10 0) (fun _ => 0) (by decide)

/-- C2 counterexample: construction itself can violate `len ≤ limit` — a pool
built with `new(limit := 0, pre_allocate := 1, initialize := true)` returns
from the constructor with 1 spare and limit 0. -/
theorem spares_le_limit_cex :
    ¬ ((Pool.new 0 1 true (fun _ => (0 : Nat))).len ≤
        (Pool.new 0 1 true (fun _ => (0 : Nat))).limit) := by
  decide

/-- C2 (amended): every operation of the interface other than eager
over-filled construction keeps `len ≤ limit`: `pop`, `try_pop`, `push` and
`clear` preserve it from any state satisfying it, and `new` establishes it
whenever the eager flag is off or `pre_allocate ≤ limit`. -/
theorem spares_le_limit (p : Pool T) (v : T) (L pre : Nat) (eager : Bool)
    (f : Unit → T) (h : p.len ≤ p.limit) (hnew : eager = false ∨ pre ≤ L) :
    ((p.pop).2).len ≤ p.limit ∧
    ((p.try_pop).2).len ≤ p.limit ∧
    (p.push v).len ≤ p.limit ∧
    (p.clear).len ≤ p.limit ∧
    (Pool.new L pre eager f).len ≤ (Pool.new L pre eager f).limit := by
  have hdrop : p.cached.dropLast.length ≤ p.limit := by
    have := p.cached.length_dropLast
    have hlen : p.cached.length ≤ p.limit := h
    omega
  refine ⟨?_, ?_, len_push_le p v h, ?_, ?_⟩
  · rw [len_pop_snd]; exact hdrop
  · rw [len_try_pop_snd]; exact hdrop
  · simp [Pool.clear, Pool.len]
  · rcases hnew with he | hp
    · simp [Pool.new, Pool.len, he]
    · cases eager
      · simp [Pool.new, Pool.len]
      · simp [Pool.new, Pool.len]
        omega

/-- Witness for `spares_le_limit`: the invariant is preserved from the
concrete one-spare pool with limit 2, and established by an eager
construction with `pre_allocate = 3 ≤ limit = 5`. -/
theorem spares_le_limit_witness :
    ((natPool.pop).2).len ≤ natPool.limit ∧
    ((natPool.try_pop).2).len ≤ natPool.limit ∧
    (natPool.push 9).len ≤ natPool.limit ∧
    (natPool.clear).len ≤ natPool.limit ∧
    (Pool.new 5 3 true (fun _ => (0 : Nat))).len ≤
      (Pool.new 5 3 true (fun _ => (0 : Nat))).limit :=
  spares_le_limit natPool 9 5 3 true (fun _ => 0) (by decide) (Or.inr (by decide))

/-- C10: the limit is immutable after construction — `new` stores exactly the
requested limit, and any sequence of `pop`, `try_pop`, `push` and `clear`
operations leaves the `limit` observer unchanged. -/
theorem limit_immutable (L pre : Nat) (eager : Bool) (f : Unit → T)
    (ops : List (Op T)) (p : Pool T) :
    (Pool.new L pre eager f).limit = L ∧
    (applyOps p ops).limit = p.limit ∧
    (applyOps (Pool.new L pre eager f) ops).limit = L :=
  ⟨rfl, limit_applyOps ops p, limit_applyOps ops (Pool.new L pre eager f)⟩

/-- C8 counterexample: on an empty pool with a positive limit, one `pop`
immediately followed by a `push` of the popped value raises the spare count
from 0 to 1, so the pop-then-push pair does not leave the count unchanged in
general. -/
theorem pop_push_roundtrip_cex :
    ¬ ((popPush natPoolEmpty).len = natPoolEmpty.len) := by
  decide

/-- C8 (amended): a `pop` immediately followed by a `push` of the popped value
leaves the spare count unchanged whenever the pool is non-empty and within its
limit; on an initially empty pool with a positive limit the first pair fills
the pool to one spare and every later pair leaves it there, so any positive
number of rounds ends with exactly one spare. -/
theorem pop_push_roundtrip (p : Pool T) (L n : Nat) (f : Unit → T)
    (h1 : p.cached ≠ []) (h2 : p.len ≤ p.limit) (hL : 1 ≤ L) (hn : 1 ≤ n) :
    (popPush p).len = p.len ∧
    (popPushN (Pool.new L 0 false f) n).len = 1 := by
  constructor
  · rw [popPush_eq_self p h1 h2]
  · obtain ⟨m, rfl⟩ : ∃ m, n = m + 1 := ⟨n - 1, by omega⟩
    show (popPushN (popPush (Pool.new L 0 false f)) m).len = 1
    rw [popPush_nil (Pool.new L 0 false f) (by simp [Pool.new])
      (by simpa [Pool.new] using hL)]
    rw [popPushN_eq_self m _ (by simp) (by simp [Pool.new, Pool.len]; omega)]
    simp [Pool.new, Pool.len]

/-- Witness for `pop_push_roundtrip`: one round on the concrete one-spare
pool keeps its count, and ten rounds on an empty pool with limit 3 (the
spec's test) end with exactly one spare. -/
theorem pop_push_roundtrip_witness :
    (popPush natPool).len = natPool.len ∧
    (popPushN (Pool.new 3 0 false (fun _ => (0 : Nat))) 10).len = 1 :=
  pop_push_roundtrip natPool 3 10 (fun _ => 0) (by decide) (by decide) (by decide)
    (by decide)

/-- C1: exactly-once handling of a guarded value: `pop_guarded` moves the
popped value into the guard slot (removing it from the spares, or leaving the
pool untouched when the value is freshly constructed), `try_pop_guarded`
likewise, a drop against a live pool performs exactly one return attempt and
empties the slot, a second drop of the emptied guard never touches the pool
again, `into_inner` takes the value and leaves a guard whose drop is a no-op,
and a drop against a dead pool changes nothing — the value lives in at most
one place at any instant and is never returned twice. -/
theorem guard_exactly_once (p q : Pool T) (g : Guard T) (w : Option (Pool T)) :
    ((SharedPool.pop_guarded p).1).val = some ((p.pop).1) ∧
    (p.cached = ((SharedPool.pop_guarded p).2).cached
        ++ (((SharedPool.pop_guarded p).1).val).toList
      ∨ (p.cached = [] ∧ (SharedPool.pop_guarded p).2 = p)) ∧
    (SharedPool.try_pop_guarded p).1
      = (p.cached.getLast?).map (fun v => ({ val := some v } : Guard T)) ∧
    p.cached = ((SharedPool.try_pop_guarded p).2).cached
      ++ (p.cached.getLast?).toList ∧
    g.dropRun (some q)
      = (some (match g.val with | some v => q.push v | none => q),
         ({ val := none } : Guard T)) ∧
    ((g.dropRun (some q)).2).dropRun w = (w, (g.dropRun (some q)).2) ∧
    (g.into_inner).2 = ({ val := none } : Guard T) ∧
    ((g.into_inner).2).dropRun w = (w, (g.into_inner).2) ∧
    g.dropRun none = (none, g) := by
  obtain ⟨gv⟩ := g
  refine ⟨rfl, ?_, ?_, ?_, ?_, ?_, rfl, ?_, rfl⟩
  · rcases cached_cases p.cached with h | ⟨l, a, h⟩
    · exact Or.inr ⟨h, by simp [SharedPool.pop_guarded, pop_nil p h]⟩
    · refine Or.inl ?_
      simp [SharedPool.pop_guarded, pop_concat p l a h, h]
  · rcases cached_cases p.cached with h | ⟨l, a, h⟩
    · simp [SharedPool.try_pop_guarded, try_pop_nil p h, h]
    · simp [SharedPool.try_pop_guarded, try_pop_concat p l a h, h,
        List.getLast?_concat]
  · rcases cached_cases p.cached with h | ⟨l, a, h⟩
    · simp [SharedPool.try_pop_guarded, try_pop_nil p h, h]
    · simp [SharedPool.try_pop_guarded, try_pop_concat p l a h, h,
        List.getLast?_concat]
  · cases gv <;> rfl
  · cases gv <;> cases w <;> rfl
  · cases w <;> rfl

/-- C4: a guard dropped unconsumed pushes its value back into the originating
pool when the shared state still exists (subject to `push` capacity shedding)
and discards it when every owning handle is gone; acquiring a guarded value
from an empty pool with limit 10 and dropping the guard unconsumed leaves the
pool with exactly one spare. -/
theorem guard_drop_returns (g : Guard T) (q : Pool T) (f : Unit → T) :
    g.dropRun (some q)
      = (some (match g.val with | some v => q.push v | none => q),
         ({ val := none } : Guard T)) ∧
    g.dropRun none = (none, g) ∧
    ((SharedPool.pop_guarded (Pool.new 10 0 false f)).2).len = 0 ∧
    ((((SharedPool.pop_guarded (Pool.new 10 0 false f)).1).dropRun
        (some ((SharedPool.pop_guarded (Pool.new 10 0 false f)).2))).1).map Pool.len
      = some 1 := by
  obtain ⟨gv⟩ := g
  refine ⟨?_, rfl, rfl, rfl⟩
  · cases gv <;> rfl

/-- C6: `Guard::into_inner` extracts the held value and forfeits auto-return:
the extracted value is exactly the slot's content, the remaining guard holds
nothing, its drop is a no-op on any world, and acquiring a guarded value from
an empty pool then consuming it leaves the pool length at 0. -/
theorem into_inner_forfeits (g : Guard T) (w : Option (Pool T)) (f : Unit → T) :
    (g.into_inner).1 = g.val ∧
    ((g.into_inner).2).val = none ∧
    ((g.into_inner).2).dropRun w = (w, (g.into_inner).2) ∧
    ((((((SharedPool.pop_guarded (Pool.new 10 0 false f)).1).into_inner).2).dropRun
        (some ((SharedPool.pop_guarded (Pool.new 10 0 false f)).2))).1).map Pool.len
      = some 0 := by
  refine ⟨rfl, rfl, ?_, rfl⟩
  · cases w <;> rfl

/-- C9: a consumed guard is unrepresentable rather than silently defaulted:
guards produced by `pop_guarded` always hold a value, guards produced by
`try_pop_guarded` always hold a value, and `deref`, `deref_mut` and
`into_inner` return exactly the held slot, so on such guards the `unwrap`
calls they model never hit `none`. -/
theorem consumed_guard_unrepresentable (p : Pool T) (g : Guard T) :
    (((SharedPool.pop_guarded p).1).val).isSome = true ∧
    Option.all (fun g2 => (g2.val).isSome) ((SharedPool.try_pop_guarded p).1)
      = true ∧
    g.deref = g.val ∧
    g.deref_mut = g.val ∧
    (g.into_inner).1 = g.val := by
  refine ⟨rfl, ?_, rfl, rfl, rfl⟩
  · rcases cached_cases p.cached with h | ⟨l, a, h⟩
    · simp [SharedPool.try_pop_guarded, try_pop_nil p h, Option.all]
    · simp [SharedPool.try_pop_guarded, try_pop_concat p l a h, Option.all]

end Claims

end BoundedPool
